import Mathlib

/-!
Shallow embedding of `cherimoya_cdk/utils.py` and proofs about it.

Python dictionaries are modelled as insertion-ordered association lists
`List (String × V)` with unique keys; `dlookup`, `dinsert` and `derase`
mirror CPython dict lookup, item assignment and `pop`.  Python values are
modelled by the inductive `PyVal`; Python truthiness by `truthy`.
Functions that can raise return `Except`; in-place mutation and the
process-wide logging registry are modelled by explicit state passing.
-/

namespace Cherimoya

/-! ## Python dictionary primitives -/

/-- Lookup of a key in a Python dict (insertion-ordered association list),
as in `d.get(k)` / `d[k]`. -/
def dlookup {V : Type} : List (String × V) → String → Option V
  | [], _ => Option.none
  | p :: ps, k => if p.1 = k then Option.some p.2 else dlookup ps k

/-- Item assignment `d[k] = v` on a Python dict: an existing key keeps its
position and gets the new value, a fresh key is appended at the end. -/
def dinsert {V : Type} : List (String × V) → String → V → List (String × V)
  | [], k, v => [(k, v)]
  | p :: ps, k, v => if p.1 = k then (k, v) :: ps else p :: dinsert ps k v

/-- Removal of a key from a Python dict, as done by `d.pop(k)` when the key
is present. -/
def derase {V : Type} : List (String × V) → String → List (String × V)
  | [], _ => []
  | p :: ps, k => if p.1 = k then ps else p :: derase ps k

/-- The dict-merge `{**a, **b}`: start from a copy of `a` and assign every
item of `b` in order. -/
def dictMerge {V : Type} (a b : List (String × V)) : List (String × V) :=
  b.foldl (fun acc p => dinsert acc p.1 p.2) a

/-- Right-biased choice on options, used to state dict-merge precedence. -/
def oOr {V : Type} (a b : Option V) : Option V :=
  match a with
  | Option.some v => Option.some v
  | Option.none => b

/-- Removal of a list of keys, one after the other, without any presence
check (the state reached by the `pop` loop of `remove_params`). -/
def eraseAll {V : Type} (d : List (String × V)) (ps : List String) :
    List (String × V) :=
  ps.foldl (fun acc p => derase acc p) d

/-! ## Python values -/

/-- Python values, as far as the utilities inspect them: `None`, booleans,
integers, strings, dicts with string keys, and class instances carrying
their class name. -/
inductive PyVal where
  | pnone
  | pbool (b : Bool)
  | pint (n : Int)
  | pstr (s : String)
  | pdict (d : List (String × PyVal))
  | pobj (cls : String)

/-- Python truthiness of a value, as used by `assert` and `or`. -/
def truthy : PyVal → Bool
  | PyVal.pnone => false
  | PyVal.pbool b => b
  | PyVal.pint n => decide (n ≠ 0)
  | PyVal.pstr s => decide (s ≠ "")
  | PyVal.pdict d => !d.isEmpty
  | PyVal.pobj _ => true

/-- The name of `type(v)`, used to resolve a constructor signature. -/
def typeName : PyVal → String
  | PyVal.pnone => "NoneType"
  | PyVal.pbool _ => "bool"
  | PyVal.pint _ => "int"
  | PyVal.pstr _ => "str"
  | PyVal.pdict _ => "dict"
  | PyVal.pobj cls => cls

/-! ## `gen_name` and `stage_based_removal_policy` -/

/-- The view of an `aws_cdk.Stack` that the utilities read: its name, and an
optional `stage` attribute.  `Option.none` models a stack without the
attribute; `Option.some Option.none` models `stack.stage is None`. -/
structure PyStack where
  stack_name : String
  stage : Option (Option String)
deriving DecidableEq

/-- Python `s.lower()` (character-wise case folding). -/
def pyToLower (s : String) : String :=
  String.mk (s.data.map Char.toLower)

/-- Python `s.replace(pat, rep)` for a single-character pattern and
replacement (the only shape `gen_name` uses): every occurrence of `pat` is
replaced by `rep`. -/
def pyReplaceChar (s : String) (pat rep : Char) : String :=
  String.mk (s.data.map fun c => if c = pat then rep else c)

/-- Embedding of `gen_name` (utils.py lines 14-37), with the governing stack
already resolved from the scope by `Stack.of`. -/
def gen_name (stack : PyStack) (id : String)
    (globalize : Bool) (all_lower : Bool) (clean_string : Bool) : String :=
  let result := stack.stack_name ++ "-" ++ id
  let result :=
    match globalize, stack.stage with
    | true, Option.some (Option.some st) => result ++ "-" ++ st
    | _, _ => result
  let result := if all_lower then pyToLower result else result
  if clean_string then pyReplaceChar (pyReplaceChar result '_' '-') '.' '-'
  else result

/-- The two CDK removal policies returned by `stage_based_removal_policy`. -/
inductive RemovalPolicy where
  | retain
  | destroy
deriving DecidableEq

/-- Embedding of `stage_based_removal_policy` (utils.py lines 44-49). -/
def stage_based_removal_policy (stack : PyStack) : RemovalPolicy :=
  match stack.stage with
  | Option.some (Option.some s) =>
      if s = "PROD" then RemovalPolicy.retain else RemovalPolicy.destroy
  | _ => RemovalPolicy.destroy

/-! ## `get_params` -/

/-- The kind of a parameter in an `inspect.signature`. -/
inductive ParamKind where
  | posOnly
  | posOrKw
  | varPos
  | kwOnly
  | varKw
deriving DecidableEq

/-- A constructor signature: parameter names with their kinds, in order. -/
abbrev Sig := List (String × ParamKind)

/-- The test `parameters.get(k) and parameters[k].kind == KEYWORD_ONLY`
(parameter objects are always truthy, so the first conjunct is just
membership). -/
def kwOnlyTest (ps : Sig) (k : String) : Bool :=
  match dlookup ps k with
  | Option.some pk => decide (pk = ParamKind.kwOnly)
  | Option.none => false

/-- `allvars.get("self")`, with Python's `None` default. -/
def selfOf (allvars : List (String × PyVal)) : PyVal :=
  (dlookup allvars "self").getD PyVal.pnone

/-- The catch-all dict that `get_params` ends up merging in: the value of
the `kwargs` entry if it is a dict, and `{}` when it is falsy. -/
def kwargsOf (allvars : List (String × PyVal)) : List (String × PyVal) :=
  match (dlookup allvars "kwargs").getD PyVal.pnone with
  | PyVal.pdict dd => dd
  | _ => []

/-- The snapshot entries whose names are keyword-only parameters of the
receiver's constructor. -/
def kwOnlyEntries (classes : String → Sig) (allvars : List (String × PyVal)) :
    List (String × PyVal) :=
  allvars.filter fun p => kwOnlyTest (classes (typeName (selfOf allvars))) p.1

/-- Embedding of `get_params` (utils.py lines 52-86).  `classes` models the
reflective access `signature(type(allvars["self"]).__init__).parameters`;
failed `assert`s and the `{**...}` splat of a non-mapping raise, modelled by
`Except.error`. -/
def get_params (classes : String → Sig) (allvars : List (String × PyVal)) :
    Except String (List (String × PyVal)) :=
  let sv := selfOf allvars
  if truthy sv = false then Except.error "AssertionError: allvars.get(self)"
  else if (dlookup allvars "kwargs").isNone then
    Except.error "AssertionError: kwargs in allvars"
  else
    let kw := (dlookup allvars "kwargs").getD PyVal.pnone
    let kwd : Except String (List (String × PyVal)) :=
      if truthy kw then
        match kw with
        | PyVal.pdict dd => Except.ok dd
        | _ => Except.error "TypeError: argument after ** must be a mapping"
      else Except.ok []
    match kwd with
    | Except.error e => Except.error e
    | Except.ok kd =>
      let ps := classes (typeName sv)
      Except.ok (dictMerge (allvars.filter fun p => kwOnlyTest ps p.1) kd)

/-- Signature of `foo.__init__(self, a, b, *, c=3, d=4, **kwargs)` from the
docstring example of `get_params`. -/
def fooSig : Sig :=
  [("self", ParamKind.posOrKw), ("a", ParamKind.posOrKw),
   ("b", ParamKind.posOrKw), ("c", ParamKind.kwOnly),
   ("d", ParamKind.kwOnly), ("kwargs", ParamKind.varKw)]

/-- Class table holding only the example class `foo`. -/
def exampleClasses : String → Sig :=
  fun c => if c = "foo" then fooSig else []

/-- `locals()` at the start of `foo.__init__` for the example call
`foo("a", "b", d="DDD", foobar="baz")`. -/
def exampleVars : List (String × PyVal) :=
  [("self", PyVal.pobj "foo"), ("a", PyVal.pstr "a"), ("b", PyVal.pstr "b"),
   ("c", PyVal.pint 3), ("d", PyVal.pstr "DDD"),
   ("kwargs", PyVal.pdict [("foobar", PyVal.pstr "baz")])]

/-! ## `filter_kwargs` -/

/-- Python `s.startswith(pre)`. -/
def pyStartsWith (s pre : String) : Bool :=
  pre.data.isPrefixOf s.data

/-- Removal of the first occurrence of `pat` from a character list, the
behaviour of Python `s.replace(pat, "", 1)`. -/
def replaceFirstChars (pat : List Char) : List Char → List Char
  | [] => []
  | c :: cs =>
    if pat.isPrefixOf (c :: cs) then (c :: cs).drop pat.length
    else c :: replaceFirstChars pat cs

/-- Python `s.replace(pat, "", 1)`. -/
def pyReplaceFirst (s pat : String) : String :=
  String.mk (replaceFirstChars pat.data s.data)

/-- Embedding of `filter_kwargs` (utils.py lines 89-107): the dict
comprehension builds a fresh dict by inserting, in iteration order, the
prefix-stripped key for every key starting with `filter`. -/
def filter_kwargs {V : Type} (kwargs : List (String × V)) (filter : String) :
    List (String × V) :=
  kwargs.foldl
    (fun acc p =>
      if pyStartsWith p.1 filter then
        dinsert acc (pyReplaceFirst p.1 filter) p.2
      else acc)
    []

/-- The same filtering stated entry-wise (kept entries in source order),
used to characterise `filter_kwargs`. -/
def filterSpec {V : Type} (kwargs : List (String × V)) (filter : String) :
    List (String × V) :=
  kwargs.filterMap fun p =>
    if pyStartsWith p.1 filter then
      Option.some (pyReplaceFirst p.1 filter, p.2)
    else Option.none

/-- The example dict of the `filter_kwargs` docstring. -/
def exFilterD : List (String × PyVal) :=
  [("a_b", PyVal.pint 1), ("a_c", PyVal.pint 2), ("b_abc", PyVal.pstr "x")]

/-! ## `remove_params` -/

/-- Embedding of `remove_params` (utils.py lines 110-121): pop each listed
key in order; a missing key raises `KeyError`, modelled by `Except.error`
carrying the missing key and the dict state at the moment of the raise. -/
def remove_params {V : Type} :
    List (String × V) → List String →
    Except (String × List (String × V)) (List (String × V))
  | d, [] => Except.ok d
  | d, p :: ps =>
    match dlookup d p with
    | Option.none => Except.error (p, d)
    | Option.some _ => remove_params (derase d p) ps

/-! ## `setup_logger` -/

/-- The `logging._nameToLevel` table consulted by `getLevelName` and
`setLevel`. -/
def nameToLevel (s : String) : Option Int :=
  if s = "CRITICAL" then Option.some 50
  else if s = "FATAL" then Option.some 50
  else if s = "ERROR" then Option.some 40
  else if s = "WARN" then Option.some 30
  else if s = "WARNING" then Option.some 30
  else if s = "INFO" then Option.some 20
  else if s = "DEBUG" then Option.some 10
  else if s = "NOTSET" then Option.some 0
  else Option.none

/-- A Python logging level value: either an int, or the string that
`logging.getLevelName` returns for an unknown name. -/
inductive PyLevel where
  | ofInt (n : Int)
  | ofStr (s : String)
deriving DecidableEq

/-- `logging.getLevelName` applied to a string (the env-var fallback path):
a known name maps to its numeric level, an unknown one to a string. -/
def getLevelName (s : String) : PyLevel :=
  match nameToLevel s with
  | Option.some n => PyLevel.ofInt n
  | Option.none => PyLevel.ofStr ("Level " ++ s)

/-- `logging._checkLevel`, as run by `Logger.setLevel` and
`Handler.setLevel`: ints pass through, known level names resolve, anything
else raises `ValueError`. -/
def checkLevel : PyLevel → Except String Int
  | PyLevel.ofInt n => Except.ok n
  | PyLevel.ofStr s =>
    match nameToLevel s with
    | Option.some n => Except.ok n
    | Option.none => Except.error "ValueError"

/-- An attached stream handler: its `name`, level and format string. -/
structure Handler where
  hname : Option String
  hlevel : Int
  hformat : String
deriving DecidableEq

/-- The state of one named logger in the process-wide registry. -/
structure Logger where
  level : Int
  handlers : List Handler
deriving DecidableEq

/-- The default format string of `setup_logger`. -/
def defaultFormat : String := "%(asctime)s | %(levelname)-8s | %(message)s"

/-- The level resolution at the top of `setup_logger`: an explicit `level`
argument is used as is, otherwise `getLevelName` of the `LOGLEVEL`
environment variable (default `"INFO"`). -/
def resolveLevel (envLoglevel : Option String) (level : Option Int) : PyLevel :=
  match level with
  | Option.some l => PyLevel.ofInt l
  | Option.none => getLevelName (envLoglevel.getD "INFO")

/-- The line `formatstr = formatstr or "..."`: `None` and the empty string
are falsy and fall back to the default format. -/
def resolveFormat (formatstr : Option String) : String :=
  match formatstr with
  | Option.some s => if s = "" then defaultFormat else s
  | Option.none => defaultFormat

/-- Embedding of `setup_logger` (utils.py lines 124-146).  `envLoglevel` is
the value of the `LOGLEVEL` environment variable; `logger` is the current
registry state for `name` (`logging.getLogger(name)` returns the same
per-name instance on every call, which the state passing models);
the returned state is the logger as the call leaves it. -/
def setup_logger (envLoglevel : Option String) (name : Option String)
    (level : Option Int) (formatstr : Option String) (logger : Logger) :
    Except String Logger :=
  let lvl : PyLevel := resolveLevel envLoglevel level
  if logger.handlers.any (fun h => h.hname == name) then Except.ok logger
  else
    let fstr := resolveFormat formatstr
    match checkLevel lvl with
    | Except.error e => Except.error e
    | Except.ok n =>
      Except.ok (Logger.mk n (logger.handlers ++ [Handler.mk name n fstr]))

/-- Number of attached handlers of `lg` whose name is `n`. -/
def handlerCount (lg : Logger) (n : Option String) : Nat :=
  (lg.handlers.filter fun h => h.hname == n).length

/-- The spec invariant: at most one handler with a given name is attached
per logger instance. -/
def handlerInvariant (lg : Logger) : Prop :=
  ∀ n, handlerCount lg n ≤ 1

/-! ## Dictionary lemmas -/

theorem dlookup_dinsert {V : Type} (d : List (String × V)) (k : String) (v : V)
    (k' : String) :
    dlookup (dinsert d k v) k' = if k' = k then Option.some v else dlookup d k' := by
  induction d with
  | nil =>
    by_cases hk : k' = k
    · subst hk; simp [dinsert, dlookup]
    · have hk2 : ¬ k = k' := fun hc => hk hc.symm
      simp [dinsert, dlookup, hk, hk2]
  | cons p ps ih =>
    by_cases hp : p.1 = k
    · by_cases hk : k' = k
      · subst hk; simp [dinsert, dlookup, hp]
      · have hpk' : ¬ p.1 = k' := by
          rw [hp]; exact fun hc => hk hc.symm
        have hkk : ¬ k = k' := fun hc => hk hc.symm
        simp [dinsert, dlookup, hp, hk, hpk', hkk]
    · by_cases hk : k' = k
      · subst hk; simp [dinsert, dlookup, hp, ih]
      · simp [dinsert, dlookup, hp, hk, ih]

theorem dlookup_derase_ne {V : Type} (d : List (String × V)) (k k' : String)
    (hne : k' ≠ k) : dlookup (derase d k) k' = dlookup d k' := by
  induction d with
  | nil => simp [derase]
  | cons p ps ih =>
    by_cases hp : p.1 = k
    · have hkk : ¬ k = k' := fun hc => hne hc.symm
      simp [derase, dlookup, hp, hkk]
    · simp [derase, dlookup, hp, ih]

theorem dlookup_eq_none_iff {V : Type} (d : List (String × V)) (k : String) :
    dlookup d k = Option.none ↔ k ∉ d.map Prod.fst := by
  induction d with
  | nil => simp [dlookup]
  | cons p ps ih =>
    by_cases hp : p.1 = k
    · simp [dlookup, hp]
    · have hp' : ¬ k = p.1 := fun hc => hp hc.symm
      simp [dlookup, hp, hp', ih]

theorem keys_derase_sublist {V : Type} (d : List (String × V)) (k : String) :
    List.Sublist ((derase d k).map Prod.fst) (d.map Prod.fst) := by
  induction d with
  | nil => simp [derase]
  | cons p ps ih =>
    by_cases hp : p.1 = k
    · simp only [derase, hp, if_pos, List.map_cons]
      exact List.sublist_cons_self _ _
    · simp only [derase, hp, if_neg, List.map_cons]
      exact List.Sublist.cons₂ _ ih

theorem dlookup_derase_self {V : Type} (d : List (String × V)) (k : String)
    (hnd : (d.map Prod.fst).Nodup) : dlookup (derase d k) k = Option.none := by
  induction d with
  | nil => simp [derase, dlookup]
  | cons p ps ih =>
    simp only [List.map_cons, List.nodup_cons] at hnd
    by_cases hp : p.1 = k
    · have hout : k ∉ ps.map Prod.fst := hp ▸ hnd.1
      simp [derase, hp, (dlookup_eq_none_iff ps k).mpr hout]
    · simp [derase, dlookup, hp, ih hnd.2]

theorem dlookup_dictMerge {V : Type} (a b : List (String × V)) (k : String)
    (hb : (b.map Prod.fst).Nodup) :
    dlookup (dictMerge a b) k = oOr (dlookup b k) (dlookup a k) := by
  induction b generalizing a with
  | nil => simp [dictMerge, dlookup, oOr]
  | cons p ps ih =>
    simp only [List.map_cons, List.nodup_cons] at hb
    have step : dictMerge a (p :: ps) = dictMerge (dinsert a p.1 p.2) ps := rfl
    rw [step, ih (dinsert a p.1 p.2) hb.2]
    by_cases hk : p.1 = k
    · have hnone : dlookup ps k = Option.none :=
        (dlookup_eq_none_iff ps k).mpr (hk ▸ hb.1)
      simp [dlookup, hk, hnone, oOr, dlookup_dinsert]
    · have hk' : ¬ k = p.1 := fun hc => hk hc.symm
      cases hps : dlookup ps k <;>
        simp [dlookup, hk, hk', hps, oOr, dlookup_dinsert]

/-! ## Claim C3: `gen_name` -/

/-- Claim C3: `gen_name` returns `"{stack_name}-{id}"`; when `globalize` is true
and the stack has a non-null stage, `"-{stage}"` is appended; `all_lower`
lower-cases the whole result; `clean_string` replaces every underscore and
period by a hyphen, applied after the case folding; a missing or null stage
attribute never fails and simply does not append. -/
theorem gen_name_spec (S : String) (stage : Option (Option String)) (id : String) :
    gen_name (PyStack.mk S stage) id false false false = S ++ "-" ++ id
    ∧ (∀ st, stage = Option.some (Option.some st) →
        gen_name (PyStack.mk S stage) id true false false = S ++ "-" ++ id ++ "-" ++ st)
    ∧ (stage = Option.none ∨ stage = Option.some Option.none →
        gen_name (PyStack.mk S stage) id true false false = S ++ "-" ++ id)
    ∧ (∀ g l c, gen_name (PyStack.mk S stage) id g l c =
        (let base := gen_name (PyStack.mk S stage) id g false false
         let folded := if l then pyToLower base else base
         if c then pyReplaceChar (pyReplaceChar folded '_' '-') '.' '-'
         else folded)) := by
  refine ⟨?_, ?_, ?_, ?_⟩
  · rcases stage with _ | o
    · rfl
    · rcases o with _ | st <;> rfl
  · intro st h; subst h; rfl
  · rintro (rfl | rfl) <;> rfl
  · intro g l c
    rcases stage with _ | o
    · cases g <;> cases l <;> cases c <;> rfl
    · rcases o with _ | st <;> cases g <;> cases l <;> cases c <;> rfl

/-- Witness for C3 at a concrete stack, id and stage. -/
theorem gen_name_spec_witness :
    gen_name (PyStack.mk "Stack" (Option.some (Option.some "dev"))) "id"
      true false false = "Stack-id-dev" :=
  (gen_name_spec "Stack" (Option.some (Option.some "dev")) "id").2.1 "dev" rfl

/-! ## Claim C8: `stage_based_removal_policy` -/

/-- Claim C8: the policy is `retain` exactly when the stack has a stage attribute
equal to `"PROD"`; in every other case, including an absent or null stage
attribute, it is `destroy`. -/
theorem stage_based_removal_policy_spec (stack : PyStack) :
    (stage_based_removal_policy stack = RemovalPolicy.retain ↔
      stack.stage = Option.some (Option.some "PROD"))
    ∧ (stage_based_removal_policy stack = RemovalPolicy.destroy ↔
      stack.stage ≠ Option.some (Option.some "PROD")) := by
  obtain ⟨nm, stg⟩ := stack
  rcases stg with _ | o
  · simp [stage_based_removal_policy]
  · rcases o with _ | s
    · simp [stage_based_removal_policy]
    · by_cases hs : s = "PROD" <;>
        simp [stage_based_removal_policy, hs]

/-! ## Claim C2: `get_params` missing entries -/

/-- Claim C2: a snapshot lacking a `self` entry or lacking a `kwargs` entry makes
`get_params` fail with an unrecovered error propagated to the caller; it
never returns a result. -/
theorem get_params_missing_entry_fails (classes : String → Sig)
    (allvars : List (String × PyVal))
    (h : dlookup allvars "self" = Option.none ∨
      dlookup allvars "kwargs" = Option.none) :
    ∃ e, get_params classes allvars = Except.error e := by
  rcases h with h | h
  · refine ⟨"AssertionError: allvars.get(self)", ?_⟩
    simp [get_params, selfOf, h, truthy]
  · by_cases ht : truthy (selfOf allvars) = false
    · exact ⟨"AssertionError: allvars.get(self)", by simp [get_params, ht]⟩
    · refine ⟨"AssertionError: kwargs in allvars", ?_⟩
      simp [get_params, ht, h]

/-- Witness for C2: the empty snapshot lacks both entries. -/
theorem get_params_missing_entry_fails_witness :
    ∃ e, get_params exampleClasses [] = Except.error e :=
  get_params_missing_entry_fails exampleClasses [] (Or.inl rfl)

/-! ## Claim C9: `get_params` falsy `self` -/

/-- Claim C9: a snapshot whose `self` entry is present but falsy still fails the
first contract check of `get_params`: presence alone is not enough, the
value must be truthy. -/
theorem get_params_falsy_self_fails (classes : String → Sig)
    (allvars : List (String × PyVal)) (v : PyVal)
    (hv : dlookup allvars "self" = Option.some v) (hf : truthy v = false) :
    get_params classes allvars =
      Except.error "AssertionError: allvars.get(self)" := by
  simp [get_params, selfOf, hv, hf]

/-- Witness for C9: `self` mapped to `None` with `kwargs` present. -/
theorem get_params_falsy_self_fails_witness :
    get_params exampleClasses
        [("self", PyVal.pnone), ("kwargs", PyVal.pdict [])] =
      Except.error "AssertionError: allvars.get(self)" :=
  get_params_falsy_self_fails exampleClasses
    [("self", PyVal.pnone), ("kwargs", PyVal.pdict [])] PyVal.pnone rfl rfl

/-! ## Claim C1: `get_params` result -/

theorem get_params_ok_shape (classes : String → Sig)
    (allvars res : List (String × PyVal))
    (h : get_params classes allvars = Except.ok res) :
    res = dictMerge (kwOnlyEntries classes allvars) (kwargsOf allvars) := by
  by_cases h1 : truthy (selfOf allvars) = false
  · simp [get_params, h1] at h
  · have h1t : truthy (selfOf allvars) = true := by
      revert h1; cases truthy (selfOf allvars) <;> simp
    by_cases h2 : (dlookup allvars "kwargs").isNone
    · simp [get_params, h1t, h2] at h
    · cases ho : dlookup allvars "kwargs" with
      | none => rw [ho] at h2; exact absurd rfl h2
      | some w =>
        cases w with
        | pdict dd =>
          cases dd with
          | nil =>
            simp [get_params, h1t, ho, kwargsOf, kwOnlyEntries,
              show truthy (PyVal.pdict []) = false from rfl,
              dictMerge] at h ⊢
            exact h.symm
          | cons q qs =>
            simp [get_params, h1t, ho, kwargsOf, kwOnlyEntries,
              show truthy (PyVal.pdict (q :: qs)) = true from rfl] at h ⊢
            exact h.symm
        | pnone =>
          simp [get_params, h1t, ho, kwargsOf, kwOnlyEntries,
            show truthy PyVal.pnone = false from rfl, dictMerge] at h ⊢
          exact h.symm
        | pbool b =>
          cases b with
          | true =>
            simp [get_params, h1t, ho,
              show truthy (PyVal.pbool true) = true from rfl] at h
          | false =>
            simp [get_params, h1t, ho, kwargsOf, kwOnlyEntries,
              show truthy (PyVal.pbool false) = false from rfl,
              dictMerge] at h ⊢
            exact h.symm
        | pint n =>
          by_cases ht : truthy (PyVal.pint n) = true
          · simp [get_params, h1t, ho, ht] at h
          · rw [Bool.not_eq_true] at ht
            simp [get_params, h1t, ho, ht, kwargsOf, kwOnlyEntries,
              dictMerge] at h ⊢
            exact h.symm
        | pstr s =>
          by_cases ht : truthy (PyVal.pstr s) = true
          · simp [get_params, h1t, ho, ht] at h
          · rw [Bool.not_eq_true] at ht
            simp [get_params, h1t, ho, ht, kwargsOf, kwOnlyEntries,
              dictMerge] at h ⊢
            exact h.symm
        | pobj cls =>
          simp [get_params, h1t, ho,
            show truthy (PyVal.pobj cls) = true from rfl] at h

/-- Claim C1: on every snapshot satisfying the preconditions, `get_params`
returns exactly the keyword-only snapshot entries overlaid with the
catch-all `kwargs` dict, the catch-all taking precedence on key collision
(stated extensionally over all keys); in particular the docstring example
`foo("a", "b", d="DDD", foobar="baz")` yields
`{"c": 3, "d": "DDD", "foobar": "baz"}`. -/
theorem get_params_spec :
    (∀ (classes : String → Sig) (allvars res : List (String × PyVal)),
        get_params classes allvars = Except.ok res →
        ((kwargsOf allvars).map Prod.fst).Nodup →
        ∀ k, dlookup res k =
          oOr (dlookup (kwargsOf allvars) k)
            (dlookup (kwOnlyEntries classes allvars) k))
    ∧ get_params exampleClasses exampleVars =
        Except.ok [("c", PyVal.pint 3), ("d", PyVal.pstr "DDD"),
          ("foobar", PyVal.pstr "baz")] := by
  constructor
  · intro classes allvars res h hnd k
    rw [get_params_ok_shape classes allvars res h]
    exact dlookup_dictMerge _ _ k hnd
  · rfl

/-- Witness for C1 on the docstring example: the hypotheses of the general
part hold there, and the overlay equation is checked at key `"c"`. -/
theorem get_params_spec_witness :
    ((kwargsOf exampleVars).map Prod.fst).Nodup ∧
    dlookup [("c", PyVal.pint 3), ("d", PyVal.pstr "DDD"),
        ("foobar", PyVal.pstr "baz")] "c" =
      oOr (dlookup (kwargsOf exampleVars) "c")
        (dlookup (kwOnlyEntries exampleClasses exampleVars) "c") :=
  ⟨by decide,
    get_params_spec.1 exampleClasses exampleVars
      [("c", PyVal.pint 3), ("d", PyVal.pstr "DDD"),
        ("foobar", PyVal.pstr "baz")] rfl (by decide) "c"⟩

/-! ## Claims C4 and C10: `filter_kwargs` -/

theorem dinsert_eq_append {V : Type} (d : List (String × V)) (k : String) (v : V)
    (h : dlookup d k = Option.none) : dinsert d k v = d ++ [(k, v)] := by
  induction d with
  | nil => rfl
  | cons p ps ih =>
    simp only [dlookup] at h
    by_cases hp : p.1 = k
    · rw [if_pos hp] at h; exact Option.noConfusion h
    · rw [if_neg hp] at h
      simp [dinsert, hp, ih h]

theorem replaceFirstChars_of_isPrefixOf (p s : List Char)
    (h : p.isPrefixOf s = true) : p ++ replaceFirstChars p s = s := by
  cases s with
  | nil =>
    have hp : p = [] := by
      cases p with
      | nil => rfl
      | cons q qs => simp [List.isPrefixOf] at h
    subst hp; rfl
  | cons c cs =>
    obtain ⟨t, ht⟩ := List.isPrefixOf_iff_prefix.mp h
    simp only [replaceFirstChars, h, if_pos]
    rw [← ht, List.drop_left]

theorem pyReplaceFirst_append (s p : String) (h : pyStartsWith s p = true) :
    p.data ++ (pyReplaceFirst s p).data = s.data :=
  replaceFirstChars_of_isPrefixOf p.data s.data h

theorem pyReplaceFirst_inj (k₁ k₂ p : String) (h₁ : pyStartsWith k₁ p = true)
    (h₂ : pyStartsWith k₂ p = true)
    (he : pyReplaceFirst k₁ p = pyReplaceFirst k₂ p) : k₁ = k₂ := by
  apply String.ext
  have e1 := pyReplaceFirst_append k₁ p h₁
  have e2 := pyReplaceFirst_append k₂ p h₂
  rw [← e1, ← e2, he]

theorem filter_kwargs_eq_filterSpec {V : Type} (d : List (String × V))
    (pre : String) (hnd : (d.map Prod.fst).Nodup) :
    filter_kwargs d pre = filterSpec d pre := by
  induction d using List.reverseRecOn with
  | nil => rfl
  | append_singleton xs q ih =>
    rw [List.map_append] at hnd
    have hnd2 := List.nodup_append.mp hnd
    have hq1 : q.1 ∉ xs.map Prod.fst :=
      fun hc => hnd2.2.2 hc (by simp)
    have ihe := ih hnd2.1
    by_cases hq : pyStartsWith q.1 pre = true
    · have hfold : filter_kwargs (xs ++ [q]) pre =
          dinsert (filter_kwargs xs pre) (pyReplaceFirst q.1 pre) q.2 := by
        simp [filter_kwargs, List.foldl_append, hq]
      have hspec : filterSpec (xs ++ [q]) pre =
          filterSpec xs pre ++ [(pyReplaceFirst q.1 pre, q.2)] := by
        simp [filterSpec, List.filterMap_append, hq]
      have hfresh : dlookup (filterSpec xs pre) (pyReplaceFirst q.1 pre) =
          Option.none := by
        rw [dlookup_eq_none_iff]
        intro hmem
        obtain ⟨⟨k', v'⟩, hmem2, hfst⟩ := List.mem_map.mp hmem
        obtain ⟨⟨k0, v0⟩, hk0, hf⟩ := List.mem_filterMap.mp hmem2
        by_cases hk0s : pyStartsWith k0 pre = true
        · rw [if_pos hk0s] at hf
          have hk' : pyReplaceFirst k0 pre = k' :=
            congrArg Prod.fst (Option.some.inj hf)
          have hkq : k0 = q.1 :=
            pyReplaceFirst_inj k0 q.1 pre hk0s hq (hk'.trans hfst)
          exact hq1 (hkq ▸ List.mem_map.mpr ⟨(k0, v0), hk0, rfl⟩)
        · rw [if_neg hk0s] at hf; exact Option.noConfusion hf
      rw [hfold, ihe, hspec, dinsert_eq_append _ _ _ hfresh]
    · have h1 : filter_kwargs (xs ++ [q]) pre = filter_kwargs xs pre := by
        simp [filter_kwargs, List.foldl_append, hq]
      have h2 : filterSpec (xs ++ [q]) pre = filterSpec xs pre := by
        simp [filterSpec, List.filterMap_append, hq]
      rw [h1, h2]; exact ihe

/-- Claim C4: `filter_kwargs` keeps exactly the entries whose key starts with the
prefix, with the first occurrence of the prefix removed from the key and
the value unchanged, and nothing else; in particular the three docstring
examples evaluate as stated. -/
theorem filter_kwargs_spec :
    (∀ (V : Type) (d : List (String × V)) (pre : String),
        (d.map Prod.fst).Nodup →
        ∀ k' v, (k', v) ∈ filter_kwargs d pre ↔
          ∃ k, (k, v) ∈ d ∧ pyStartsWith k pre = true ∧
            k' = pyReplaceFirst k pre)
    ∧ filter_kwargs exFilterD "a_" = [("b", PyVal.pint 1), ("c", PyVal.pint 2)]
    ∧ filter_kwargs exFilterD "b_" = [("abc", PyVal.pstr "x")]
    ∧ filter_kwargs exFilterD "z_" = [] := by
  refine ⟨?_, rfl, rfl, rfl⟩
  intro V d pre hnd k' v
  rw [filter_kwargs_eq_filterSpec d pre hnd]
  constructor
  · intro hm
    obtain ⟨⟨k0, v0⟩, hk0, hf⟩ := List.mem_filterMap.mp hm
    by_cases hs : pyStartsWith k0 pre = true
    · rw [if_pos hs] at hf
      have hpair := Option.some.inj hf
      have hk : pyReplaceFirst k0 pre = k' := congrArg Prod.fst hpair
      have hv : v0 = v := congrArg Prod.snd hpair
      exact ⟨k0, hv ▸ hk0, hs, hk.symm⟩
    · rw [if_neg hs] at hf; exact Option.noConfusion hf
  · rintro ⟨k, hk, hs, rfl⟩
    exact List.mem_filterMap.mpr ⟨(k, v), hk, by rw [if_pos hs]⟩

/-- Witness for C4 at a concrete dict, prefix, key and value. -/
theorem filter_kwargs_spec_witness :
    (([("x_a", (1 : Int)), ("y", 2)].map Prod.fst).Nodup ∧
      (("a", (1 : Int)) ∈ filter_kwargs [("x_a", (1 : Int)), ("y", 2)] "x_" ↔
        ∃ k, (k, (1 : Int)) ∈ [("x_a", (1 : Int)), ("y", 2)] ∧
          pyStartsWith k "x_" = true ∧ "a" = pyReplaceFirst k "x_")) :=
  ⟨by decide,
    filter_kwargs_spec.1 Int [("x_a", (1 : Int)), ("y", 2)] "x_"
      (by decide) "a" 1⟩

theorem pyReplaceFirst_empty (s : String) : pyReplaceFirst s "" = s := by
  apply String.ext
  show replaceFirstChars ([] : List Char) s.data = s.data
  cases s.data with
  | nil => rfl
  | cons c cs => simp [replaceFirstChars, List.isPrefixOf]

theorem pyStartsWith_empty (s : String) : pyStartsWith s "" = true := by
  have h : ([] : List Char) <+: s.data := List.nil_prefix
  exact List.isPrefixOf_iff_prefix.mpr h

theorem filterSpec_empty {V : Type} (d : List (String × V)) :
    filterSpec d "" = d := by
  induction d with
  | nil => rfl
  | cons p ps ih =>
    have h1 : pyStartsWith p.1 "" = true := pyStartsWith_empty p.1
    have hstep : filterSpec (p :: ps) "" =
        (pyReplaceFirst p.1 "", p.2) :: filterSpec ps "" := by
      simp [filterSpec, List.filterMap_cons, h1]
    rw [hstep, pyReplaceFirst_empty, ih]

/-- Claim C10: `filter_kwargs` does not mutate its input (it is modelled as a
pure function building a fresh dict, exactly as the source comprehension
does), and with the empty prefix every key matches, prefix removal is the
identity, and the result equals the input dict. -/
theorem filter_kwargs_empty_prefix_id :
    ∀ (V : Type) (d : List (String × V)), (d.map Prod.fst).Nodup →
      filter_kwargs d "" = d :=
  fun _ d hnd =>
    (filter_kwargs_eq_filterSpec d "" hnd).trans (filterSpec_empty d)

/-- Witness for C10 at a concrete dict. -/
theorem filter_kwargs_empty_prefix_id_witness :
    filter_kwargs [("a", (1 : Int)), ("b", 2)] "" =
      [("a", (1 : Int)), ("b", 2)] :=
  filter_kwargs_empty_prefix_id Int [("a", (1 : Int)), ("b", 2)] (by decide)

/-! ## Claims C5 and C6: `remove_params` -/

/-- Claim C5 (amended): for pairwise-distinct keys that are all present,
`remove_params` succeeds and leaves the dict with exactly the listed keys
removed and every other entry unchanged. -/
theorem remove_params_removes_exactly (V : Type) (d : List (String × V))
    (ps : List String) (hd : (d.map Prod.fst).Nodup) (hps : ps.Nodup)
    (hmem : ∀ p ∈ ps, p ∈ d.map Prod.fst) :
    remove_params d ps = Except.ok (eraseAll d ps) ∧
    ∀ k, dlookup (eraseAll d ps) k =
      if k ∈ ps then Option.none else dlookup d k := by
  induction ps generalizing d with
  | nil =>
    refine ⟨rfl, fun k => ?_⟩
    simp [eraseAll]
  | cons p ps ih =>
    have hpd : p ∈ d.map Prod.fst := hmem p (List.mem_cons_self p ps)
    have hlk : dlookup d p ≠ Option.none :=
      fun hc => ((dlookup_eq_none_iff d p).mp hc) hpd
    obtain ⟨v, hv⟩ := Option.ne_none_iff_exists'.mp hlk
    have hps' := List.nodup_cons.mp hps
    have hmem' : ∀ q ∈ ps, q ∈ (derase d p).map Prod.fst := by
      intro q hq
      have hqp : q ≠ p := fun hc => hps'.1 (hc ▸ hq)
      have heq : dlookup (derase d p) q = dlookup d q :=
        dlookup_derase_ne d p q hqp
      have hqd : dlookup d q ≠ Option.none := fun hc =>
        ((dlookup_eq_none_iff d q).mp hc) (hmem q (List.mem_cons_of_mem p hq))
      by_contra hcon
      exact hqd (heq ▸ (dlookup_eq_none_iff (derase d p) q).mpr hcon)
    have hd' : ((derase d p).map Prod.fst).Nodup :=
      List.Nodup.sublist (keys_derase_sublist d p) hd
    obtain ⟨ih1, ih2⟩ := ih (derase d p) hd' hps'.2 hmem'
    have hstep : eraseAll d (p :: ps) = eraseAll (derase d p) ps := rfl
    constructor
    · simp only [remove_params, hv]
      rw [ih1, hstep]
    · intro k
      rw [hstep]
      by_cases hk1 : k ∈ ps
      · simp [ih2 k, hk1]
      · by_cases hk2 : k = p
        · subst hk2
          simp [ih2 k, hk1, dlookup_derase_self d k hd]
        · have heq : dlookup (derase d p) k = dlookup d k :=
            dlookup_derase_ne d p k hk2
          simp [ih2 k, hk1, hk2, heq]

/-- Witness for the amended C5 at a concrete dict and key list. -/
theorem remove_params_removes_exactly_witness :
    remove_params [("a", (1 : Int)), ("b", 2)] ["a"] =
        Except.ok (eraseAll [("a", (1 : Int)), ("b", 2)] ["a"]) ∧
    ∀ k, dlookup (eraseAll [("a", (1 : Int)), ("b", 2)] ["a"]) k =
      if k ∈ ["a"] then Option.none
      else dlookup [("a", (1 : Int)), ("b", 2)] k :=
  remove_params_removes_exactly Int [("a", (1 : Int)), ("b", 2)] ["a"]
    (by decide) (by decide) (by decide)

/-- Counterexample to C5 as stated: with the duplicate key sequence
`["a", "a"]` every listed key is present in `{"a": 1}`, yet the call raises
`KeyError` on the second pop instead of returning. -/
theorem remove_params_dup_counterexample :
    (∀ p ∈ (["a", "a"] : List String),
      p ∈ ([("a", (1 : Int))].map Prod.fst)) ∧
    remove_params [("a", (1 : Int))] ["a", "a"] = Except.error ("a", []) :=
  ⟨by decide, rfl⟩

theorem remove_params_append {V : Type} (d : List (String × V))
    (l₁ l₂ : List String) :
    remove_params d (l₁ ++ l₂) =
      match remove_params d l₁ with
      | Except.ok d₁ => remove_params d₁ l₂
      | Except.error x => Except.error x := by
  induction l₁ generalizing d with
  | nil => rfl
  | cons p l₁ ih =>
    cases hv : dlookup d p with
    | none => simp [remove_params, hv]
    | some v => simp [remove_params, hv, ih]

/-- Claim C6: `remove_params` raises a missing-key error exactly when some listed
key, after the keys before it have been removed in order, is absent; the
error carries the first such key and the dict state at that point, in which
exactly the preceding keys have been removed (their removal succeeded). -/
theorem remove_params_error_iff (V : Type) (d : List (String × V))
    (ps : List String) (e : String) (d' : List (String × V)) :
    remove_params d ps = Except.error (e, d') ↔
      ∃ pre post, ps = pre ++ e :: post ∧
        remove_params d pre = Except.ok d' ∧
        dlookup d' e = Option.none := by
  constructor
  · intro h
    induction ps generalizing d with
    | nil => simp [remove_params] at h
    | cons p ps ih =>
      cases hv : dlookup d p with
      | none =>
        simp only [remove_params, hv] at h
        injection h with h1
        injection h1 with he hd
        subst he; subst hd
        exact ⟨[], ps, rfl, rfl, hv⟩
      | some v =>
        simp only [remove_params, hv] at h
        obtain ⟨pre, post, h1, h2, h3⟩ := ih (derase d p) h
        refine ⟨p :: pre, post, by rw [h1]; rfl, ?_, h3⟩
        simp only [remove_params, hv]
        exact h2
  · rintro ⟨pre, post, rfl, h2, h3⟩
    rw [remove_params_append, h2]
    simp [remove_params, h3]

/-! ## Claim C7: `setup_logger` -/

/-- Claim C7: a second `setup_logger` call with the same name (the registry hands
back the same per-name logger state, which the state passing models)
returns the logger untouched — no level change, no new handler — and every
successful call preserves the at-most-one-handler-per-name invariant and
leaves exactly one handler tagged with the configured name. -/
theorem setup_logger_spec (e₁ e₂ n : Option String) (l₁ l₂ : Option Int)
    (f₁ f₂ : Option String) (lg lg₁ : Logger)
    (h : setup_logger e₁ n l₁ f₁ lg = Except.ok lg₁)
    (hinv : handlerInvariant lg) :
    setup_logger e₂ n l₂ f₂ lg₁ = Except.ok lg₁ ∧
    handlerInvariant lg₁ ∧ handlerCount lg₁ n = 1 := by
  by_cases hany : lg.handlers.any (fun hh => hh.hname == n) = true
  · have hlg : lg₁ = lg := by
      simp only [setup_logger, hany, if_pos] at h
      exact (Except.ok.inj h).symm
    subst hlg
    obtain ⟨hh, hmemb, hbeq⟩ := List.any_eq_true.mp hany
    have hmf : hh ∈ lg₁.handlers.filter (fun hh => hh.hname == n) :=
      List.mem_filter.mpr ⟨hmemb, hbeq⟩
    have hpos : 0 < handlerCount lg₁ n :=
      List.length_pos.mpr (List.ne_nil_of_mem hmf)
    have hle := hinv n
    refine ⟨?_, hinv, by omega⟩
    simp only [setup_logger, hany, if_pos]
  · simp only [setup_logger, hany] at h
    rw [if_neg (by simp [hany])] at h
    cases hcl : checkLevel (resolveLevel e₁ l₁) with
    | error er => rw [hcl] at h; simp at h
    | ok nn =>
      rw [hcl] at h
      have hlg : lg₁ = Logger.mk nn
          (lg.handlers ++ [Handler.mk n nn (resolveFormat f₁)]) :=
        (Except.ok.inj h).symm
      subst hlg
      have hzero : lg.handlers.filter (fun hh => hh.hname == n) = [] := by
        rw [List.filter_eq_nil_iff]
        intro a ha
        have hf : lg.handlers.any (fun hh => hh.hname == n) = false := by
          revert hany; cases lg.handlers.any (fun hh => hh.hname == n) <;> simp
        exact (List.any_eq_false.mp hf) a ha
      have hcnt : ∀ m, handlerCount
          (Logger.mk nn (lg.handlers ++ [Handler.mk n nn (resolveFormat f₁)])) m =
          handlerCount lg m + (if (n == m) = true then 1 else 0) := by
        intro m
        show (List.filter (fun hh => hh.hname == m)
            (lg.handlers ++ [Handler.mk n nn (resolveFormat f₁)])).length = _
        rw [List.filter_append, List.length_append]
        congr 1
        by_cases hm : (n == m) = true
        · simp [List.filter_cons, hm]
        · simp [List.filter_cons, hm]
      have hmeminv : handlerInvariant
          (Logger.mk nn (lg.handlers ++ [Handler.mk n nn (resolveFormat f₁)])) := by
        intro m
        rw [hcnt m]
        by_cases hm : (n == m) = true
        · have hnm : n = m := eq_of_beq hm
          subst hnm
          have h0 : handlerCount lg n = 0 := by
            simp [handlerCount, hzero]
          rw [if_pos hm, h0]
        · have hle := hinv m
          rw [if_neg hm]
          omega
      have hone : handlerCount
          (Logger.mk nn (lg.handlers ++ [Handler.mk n nn (resolveFormat f₁)])) n = 1 := by
        rw [hcnt n]
        have h0 : handlerCount lg n = 0 := by
          simp [handlerCount, hzero]
        rw [if_pos (beq_self_eq_true n), h0]
      refine ⟨?_, hmeminv, hone⟩
      have hany2 : (Logger.mk nn
          (lg.handlers ++ [Handler.mk n nn (resolveFormat f₁)])).handlers.any
            (fun hh => hh.hname == n) = true := by
        refine List.any_eq_true.mpr ⟨Handler.mk n nn (resolveFormat f₁), ?_, ?_⟩
        · exact List.mem_append_right _ (by simp)
        · simp
      simp only [setup_logger, hany2, if_pos]

/-- Witness for C7: a fresh logger is configured once at level 20 and the
conclusions hold for the resulting state. -/
theorem setup_logger_spec_witness :
    setup_logger Option.none (Option.some "app") (Option.some 20)
        Option.none (Logger.mk 30 []) =
      Except.ok (Logger.mk 20 [Handler.mk (Option.some "app") 20 defaultFormat]) ∧
    handlerInvariant (Logger.mk 30 []) ∧
    (setup_logger Option.none (Option.some "app") (Option.some 20)
        Option.none
        (Logger.mk 20 [Handler.mk (Option.some "app") 20 defaultFormat]) =
      Except.ok (Logger.mk 20 [Handler.mk (Option.some "app") 20 defaultFormat]) ∧
    handlerInvariant
      (Logger.mk 20 [Handler.mk (Option.some "app") 20 defaultFormat]) ∧
    handlerCount (Logger.mk 20 [Handler.mk (Option.some "app") 20 defaultFormat])
      (Option.some "app") = 1) :=
  ⟨rfl, fun m => by simp [handlerCount],
    setup_logger_spec Option.none Option.none (Option.some "app")
      (Option.some 20) (Option.some 20) Option.none Option.none
      (Logger.mk 30 [])
      (Logger.mk 20 [Handler.mk (Option.some "app") 20 defaultFormat])
      rfl (fun m => by simp [handlerCount])⟩

end Cherimoya
